import Mathlib

/-!
A shallow embedding of `sapp/bulk_saver.py` (class `BulkSaver` and the
module-level generator `consume`), together with theorems checking the
specification's claims about it.

The Python module accumulates newly created records in a per-class-name
dictionary of lists, then `save_all` reserves primary keys once and saves
each class in the fixed order `SAVING_CLASSES_ORDER`, sorting prepared row
mappings by their key lists and inserting them in chunks of `BATCH_SIZE`
rows, one bulk-insert call per chunk.

Side effects (the reserve call, the calls to `cls.prepare`, and the
bulk-insert calls) are embedded as an explicit event trace, and the mutable
`saving` dictionary as a function from class names to pending lists.
-/

namespace BulkSaverModel

/-- The model classes an item handed to the saver can carry. The first
twelve are the classes imported by `bulk_saver.py` from `models.py`; `Run`
stands for a model class of the program that is NOT in
`SAVING_CLASSES_ORDER`: the assertion in `add`/`add_all` exists exactly to
reject records of such classes ("... should be added with
session.add()"). -/
inductive SappClass where
  | SharedText
  | Issue
  | IssueInstanceFixInfo
  | IssueInstance
  | IssueInstanceSharedTextAssoc
  | TraceFrame
  | IssueInstanceTraceFrameAssoc
  | TraceFrameAnnotation'
  | TraceFrameLeafAssoc
  | TraceFrameAnnotationTraceFrameAssoc
  | Feature
  | IssueInstanceFeatureAssoc
  | Run
deriving DecidableEq, Repr, Fintype

/-- `cls.__name__` for each model class. -/
def SappClass.name : SappClass → String
  | .SharedText => "SharedText"
  | .Issue => "Issue"
  | .IssueInstanceFixInfo => "IssueInstanceFixInfo"
  | .IssueInstance => "IssueInstance"
  | .IssueInstanceSharedTextAssoc => "IssueInstanceSharedTextAssoc"
  | .TraceFrame => "TraceFrame"
  | .IssueInstanceTraceFrameAssoc => "IssueInstanceTraceFrameAssoc"
  | .TraceFrameAnnotation' => "TraceFrameAnnotation"
  | .TraceFrameLeafAssoc => "TraceFrameLeafAssoc"
  | .TraceFrameAnnotationTraceFrameAssoc => "TraceFrameAnnotationTraceFrameAssoc"
  | .Feature => "Feature"
  | .IssueInstanceFeatureAssoc => "IssueInstanceFeatureAssoc"
  | .Run => "Run"

/-- `BulkSaver.SAVING_CLASSES_ORDER`: order is significant, objects are
saved in this order. -/
def SAVING_CLASSES_ORDER : List SappClass :=
  [ .SharedText,
    .Issue,
    .IssueInstanceFixInfo,
    .IssueInstance,
    .IssueInstanceSharedTextAssoc,
    .TraceFrame,
    .IssueInstanceTraceFrameAssoc,
    .TraceFrameAnnotation',
    .TraceFrameLeafAssoc,
    .TraceFrameAnnotationTraceFrameAssoc,
    .Feature,
    .IssueInstanceFeatureAssoc ]

/-- `BulkSaver.BATCH_SIZE`. -/
def BATCH_SIZE : Nat := 30000

/-- An in-memory record handed to `BulkSaver.add`/`add_all`: it carries its
model class (`item.model` in Python) and an abstract payload. -/
structure Item (α : Type) where
  model : SappClass
  data : α
deriving DecidableEq, Repr

/-- The `BulkSaver` accumulator state: the `saving` dictionary, keyed by
class name. `__init__` fills it with empty lists, so we model it as a total
function defaulting to `[]`. -/
structure BulkSaver (α : Type) where
  saving : String → List (Item α)

/-- `BulkSaver.__init__`: every pending list starts empty. -/
def BulkSaver.init (α : Type) : BulkSaver α := ⟨fun _ => []⟩

/-- `BulkSaver.add`. The Python method asserts `item.model` is a known
class (raising `AssertionError` otherwise, leaving `self` untouched) and
appends the item to the pending list keyed by the model's name. The result
pairs the normal/exceptional outcome with the post-call state. -/
def BulkSaver.add (b : BulkSaver α) (item : Item α) :
    Except String Unit × BulkSaver α :=
  if item.model ∈ SAVING_CLASSES_ORDER then
    (Except.ok (),
      ⟨fun s => if s = item.model.name then b.saving s ++ [item] else b.saving s⟩)
  else
    (Except.error (item.model.name ++ " should be added with session.add()"), b)

/-- `BulkSaver.add_all`. A falsy (empty) `items` is skipped entirely; a
non-empty list is validated only through its first element, and the whole
list is appended to the pending list keyed by the first item's model name. -/
def BulkSaver.add_all (b : BulkSaver α) (items : List (Item α)) :
    Except String Unit × BulkSaver α :=
  match items with
  | [] => (Except.ok (), b)
  | first :: _ =>
    if first.model ∈ SAVING_CLASSES_ORDER then
      (Except.ok (),
        ⟨fun s => if s = first.model.name then b.saving s ++ items else b.saving s⟩)
    else
      (Except.error (first.model.name ++ " should be added with session.add_all()"), b)

/-- `BulkSaver.get_items_to_add`. -/
def BulkSaver.get_items_to_add (b : BulkSaver α) (cls : SappClass) : List (Item α) :=
  b.saving cls.name

/-- The module-level generator `consume`: it pops from the end of the list
until the list is empty, yielding each popped element. The result pairs the
yielded sequence with the final state of the mutated list argument. -/
def consume : List γ → List γ × List γ
  | [] => ([], [])
  | x :: xs =>
    let rest := consume (x :: xs).dropLast
    ((x :: xs).getLast (List.cons_ne_nil x xs) :: rest.1, rest.2)
termination_by l => l.length
decreasing_by simp

/-- A prepared row mapping, as produced by `cls.prepare`: a Python dict
whose key order is its insertion order, modelled as an association list. -/
abbrev Row (β : Type) : Type := List (String × β)

/-- `list(k.keys())`: the key list of a row mapping, in order. -/
def rowKeys (r : Row β) : List String := r.map Prod.fst

/-- Python's lexicographic three-way comparison of two sequences: the first
position where the elements differ decides, and a strict prefix is
smaller. -/
def cmpList (cmp : δ → δ → Ordering) : List δ → List δ → Ordering
  | [], [] => Ordering.eq
  | [], _ :: _ => Ordering.lt
  | _ :: _, [] => Ordering.gt
  | a :: as, b :: bs =>
    match cmp a b with
    | Ordering.eq => cmpList cmp as bs
    | o => o

/-- Python's character comparison, by code point. -/
def cmpChar (a b : Char) : Ordering := compare a.toNat b.toNat

/-- Python's string comparison: lexicographic on the characters. -/
def cmpStr (a b : String) : Ordering := cmpList cmpChar a.data b.data

/-- Python's comparison of two key lists (`list.__lt__` on lists of
strings): lexicographic on the strings. -/
def cmpKeys (a b : List String) : Ordering := cmpList cmpStr a b

/-- The comparison used by `sorted(..., key=lambda k: list(k.keys()))`:
rows compare by lexicographic order on their key lists. -/
def rowLE (a b : Row β) : Bool := decide (cmpKeys (rowKeys a) (rowKeys b) ≠ Ordering.gt)

/-- `sorted(rows, key=lambda k: list(k.keys()))`: a stable sort of the
prepared rows by their key lists. -/
def sortRows (rows : List (Row β)) : List (Row β) := rows.mergeSort rowLE

/-- Modelled from the spec: `split_every` (imported from `iterutil`, whose
source is not part of the reviewed unit) splits a sequence into consecutive
fixed-size chunks, "batching rows into fixed-size chunks to bound
transaction/statement size"; a final shorter chunk holds the remainder. -/
def split_every (n : Nat) : List γ → List (List γ)
  | [] => []
  | x :: xs =>
    if 0 < n then (x :: xs).take n :: split_every n ((x :: xs).drop n)
    else [x :: xs]
termination_by l => l.length
decreasing_by simp; omega

/-- One observable side effect of `save_all`: the single
`primary_key_generator.reserve` call, a call to `cls.prepare` on the items
consumed for one class, or one `session.bulk_insert_mappings` call on one
chunk of prepared rows (each chunk in its own session/transaction). -/
inductive Event (α β : Type) where
  | reserve (classes : List SappClass) (item_counts : List (String × Nat))
  | prepareCall (cls : SappClass) (items : List (Item α))
  | insert (cls : SappClass) (rows : List (Row β))
deriving DecidableEq

/-- `BulkSaver._save(database, cls, pk_gen)`: consume the pending list of
`cls` (mutating it empty), pass the consumed items to `cls.prepare`, sort
the prepared rows by key list, and bulk-insert them in chunks of
`BATCH_SIZE`. `prepare` abstracts `cls.prepare(database, pk_gen, ...)`. -/
def BulkSaver.saveClass (prepare : SappClass → List (Item α) → List (Row β))
    (b : BulkSaver α) (cls : SappClass) : List (Event α β) × BulkSaver α :=
  let consumed := consume (b.saving cls.name)
  let items := sortRows (prepare cls consumed.1)
  (Event.prepareCall cls consumed.1 ::
      (split_every BATCH_SIZE items).map (Event.insert cls),
    ⟨fun s => if s = cls.name then consumed.2 else b.saving s⟩)

/-- The `for cls in saving_classes: self._save(database, cls, pk_gen)` loop
of `save_all`, threading the accumulator state and concatenating traces. -/
def BulkSaver.saveLoop (prepare : SappClass → List (Item α) → List (Row β)) :
    BulkSaver α → List SappClass → List (Event α β) × BulkSaver α
  | b, [] => ([], b)
  | b, c :: cs =>
    let r1 := BulkSaver.saveClass prepare b c
    let r2 := BulkSaver.saveLoop prepare r1.2 cs
    (r1.1 ++ r2.1, r2.2)

/-- `BulkSaver.save_all(database)`: filter the classes with pending items,
reserve primary keys for their item counts in one call, then save each
class in `SAVING_CLASSES_ORDER` order. -/
def BulkSaver.save_all (prepare : SappClass → List (Item α) → List (Row β))
    (b : BulkSaver α) : List (Event α β) × BulkSaver α :=
  let saving_classes :=
    SAVING_CLASSES_ORDER.filter (fun c => (b.saving c.name).length != 0)
  let item_counts :=
    saving_classes.map (fun c => (c.name, (b.get_items_to_add c).length))
  let r := BulkSaver.saveLoop prepare b saving_classes
  (Event.reserve saving_classes item_counts :: r.1, r.2)

/-- The position of a class in `SAVING_CLASSES_ORDER`. -/
def orderIdx (c : SappClass) : Nat := SAVING_CLASSES_ORDER.indexOf c

/-- The classes of the bulk-insert events of a trace, in trace order. -/
def insertLabels : List (Event α β) → List SappClass
  | [] => []
  | Event.insert c _ :: es => c :: insertLabels es
  | _ :: es => insertLabels es

/-- The `prepare` calls of a trace: for each, the class and the item list
passed, in trace order. -/
def prepCalls : List (Event α β) → List (SappClass × List (Item α))
  | [] => []
  | Event.prepareCall c items :: es => (c, items) :: prepCalls es
  | _ :: es => prepCalls es

/-- Whether an event is the key-reservation call. -/
def Event.isReserve : Event α β → Bool
  | Event.reserve _ _ => true
  | _ => false

/-! ### Helper lemmas -/

lemma name_inj : ∀ c d : SappClass, c.name = d.name → c = d := by
  decide

lemma consume_ne_nil (l : List γ) (h : l ≠ []) :
    consume l = (l.getLast h :: (consume l.dropLast).1, (consume l.dropLast).2) := by
  match l with
  | x :: xs => rw [consume]

lemma consume_eq (l : List γ) : consume l = (l.reverse, []) := by
  induction l using List.reverseRecOn with
  | nil => rw [consume]; rfl
  | append_singleton xs a ih =>
    rw [consume_ne_nil (xs ++ [a]) (by simp)]
    simp [List.dropLast_concat, List.getLast_concat, ih]

lemma split_every_flatten (n : Nat) (hn : 0 < n) (l : List γ) :
    (split_every n l).flatten = l := by
  induction l using split_every.induct n with
  | case1 => rw [split_every]; rfl
  | case2 x xs h ih =>
    rw [split_every]
    simp only [if_pos h, List.flatten_cons]
    rw [ih]
    exact List.take_append_drop n (x :: xs)
  | case3 x xs h => omega

lemma split_every_mem (n : Nat) (hn : 0 < n) (l : List γ) :
    ∀ ch ∈ split_every n l, ch.length ≤ n ∧ ch ≠ [] := by
  induction l using split_every.induct n with
  | case1 => rw [split_every]; intro ch hch; simp at hch
  | case2 x xs h ih =>
    rw [split_every]
    simp only [if_pos h, List.mem_cons]
    rintro ch (rfl | hch)
    · constructor
      · exact List.length_take_le n (x :: xs)
      · simp [List.take_eq_nil_iff]
        omega
    · exact ih ch hch
  | case3 x xs h => omega

lemma split_every_nil_iff (n : Nat) (hn : 0 < n) (l : List γ) :
    split_every n l = [] ↔ l = [] := by
  match l with
  | [] => rw [split_every]; simp
  | x :: xs => rw [split_every]; simp [hn]

lemma split_every_dropLast (n : Nat) (hn : 0 < n) (l : List γ) :
    ∀ ch ∈ (split_every n l).dropLast, ch.length = n := by
  induction l using split_every.induct n with
  | case1 => rw [split_every]; intro ch hch; simp at hch
  | case2 x xs h ih =>
    rw [split_every]
    simp only [if_pos h]
    by_cases hd : (x :: xs).drop n = []
    · rw [hd]
      rw [split_every]
      intro ch hch
      simp at hch
    · rw [List.dropLast_cons_of_ne_nil (by rw [Ne, split_every_nil_iff n h]; exact hd)]
      intro ch hch
      rcases List.mem_cons.mp hch with rfl | hch2
      · have hlt : n < (x :: xs).length := by
          by_contra hle
          exact hd (List.drop_eq_nil_of_le (by omega))
        simp [List.length_take] at hlt ⊢
        omega
      · exact ih ch hch2
  | case3 x xs h => omega

lemma cmpList_eq_iff (cmp : δ → δ → Ordering)
    (heq : ∀ a b, cmp a b = Ordering.eq ↔ a = b) :
    ∀ l1 l2, cmpList cmp l1 l2 = Ordering.eq ↔ l1 = l2 := by
  intro l1
  induction l1 with
  | nil => intro l2; cases l2 <;> simp [cmpList]
  | cons a as ih =>
    intro l2
    cases l2 with
    | nil => simp [cmpList]
    | cons b bs =>
      simp only [cmpList]
      rcases h : cmp a b with _ | _ | _
      · constructor
        · intro h2; simp at h2
        · rintro ⟨rfl, rfl⟩
          rw [(heq a a).mpr rfl] at h
          simp at h
      · have hab : a = b := (heq a b).mp h
        subst hab
        simp [ih bs]
      · constructor
        · intro h2; simp at h2
        · rintro ⟨rfl, rfl⟩
          rw [(heq a a).mpr rfl] at h
          simp at h

lemma cmpList_swap (cmp : δ → δ → Ordering)
    (heq : ∀ a b, cmp a b = Ordering.eq ↔ a = b)
    (hsw : ∀ a b, cmp a b = Ordering.lt ↔ cmp b a = Ordering.gt) :
    ∀ l1 l2, cmpList cmp l1 l2 = Ordering.lt ↔ cmpList cmp l2 l1 = Ordering.gt := by
  intro l1
  induction l1 with
  | nil => intro l2; cases l2 <;> simp [cmpList]
  | cons a as ih =>
    intro l2
    cases l2 with
    | nil => simp [cmpList]
    | cons b bs =>
      simp only [cmpList]
      rcases h : cmp a b with _ | _ | _
      · have h2 : cmp b a = Ordering.gt := (hsw a b).mp h
        simp [h2]
      · have hab : a = b := (heq a b).mp h
        subst hab
        have h2 : cmp a a = Ordering.eq := (heq a a).mpr rfl
        simp [h2, ih bs]
      · have h2 : cmp b a = Ordering.lt := by
          rcases h3 : cmp b a with _ | _ | _
          · rfl
          · have : b = a := (heq b a).mp h3
            subst this
            rw [h3] at h
            simp at h
          · have h4 : cmp a b = Ordering.lt := (hsw a b).mpr h3
            rw [h4] at h
            simp at h
        simp [h2]

lemma cmpList_lt_trans (cmp : δ → δ → Ordering)
    (heq : ∀ a b, cmp a b = Ordering.eq ↔ a = b)
    (hlt : ∀ a b c, cmp a b = Ordering.lt → cmp b c = Ordering.lt → cmp a c = Ordering.lt) :
    ∀ l1 l2 l3, cmpList cmp l1 l2 = Ordering.lt → cmpList cmp l2 l3 = Ordering.lt →
      cmpList cmp l1 l3 = Ordering.lt := by
  intro l1
  induction l1 with
  | nil =>
    intro l2 l3 h12 h23
    cases l2 with
    | nil => simp [cmpList] at h12
    | cons b bs =>
      cases l3 with
      | nil => simp [cmpList] at h23
      | cons c cs => simp [cmpList]
  | cons a as ih =>
    intro l2 l3 h12 h23
    cases l2 with
    | nil => simp [cmpList] at h12
    | cons b bs =>
      cases l3 with
      | nil => simp [cmpList] at h23
      | cons c cs =>
        simp only [cmpList] at h12 h23 ⊢
        rcases hab : cmp a b with _ | _ | _ <;> rw [hab] at h12
        · rcases hbc : cmp b c with _ | _ | _ <;> rw [hbc] at h23
          · rw [hlt a b c hab hbc]
          · have hbc' : b = c := (heq b c).mp hbc
            subst hbc'
            rw [hab]
          · simp at h23
        · have hab' : a = b := (heq a b).mp hab
          subst hab'
          rcases hbc : cmp a c with _ | _ | _ <;> rw [hbc] at h23
          · exact ih bs cs h12 h23
          · simp at h23
        · simp at h12

lemma cmpChar_eq_iff (a b : Char) : cmpChar a b = Ordering.eq ↔ a = b := by
  rw [cmpChar, Nat.compare_eq_eq]
  constructor
  · intro h
    exact Char.eq_of_val_eq (UInt32.ext h)
  · rintro rfl
    rfl

lemma cmpChar_swap (a b : Char) :
    cmpChar a b = Ordering.lt ↔ cmpChar b a = Ordering.gt := by
  rw [cmpChar, cmpChar, Nat.compare_eq_lt, Nat.compare_eq_gt]

lemma cmpChar_lt_trans (a b c : Char) (h1 : cmpChar a b = Ordering.lt)
    (h2 : cmpChar b c = Ordering.lt) : cmpChar a c = Ordering.lt := by
  rw [cmpChar, Nat.compare_eq_lt] at *
  omega

lemma cmpStr_eq_iff (a b : String) : cmpStr a b = Ordering.eq ↔ a = b := by
  rw [cmpStr, cmpList_eq_iff cmpChar cmpChar_eq_iff]
  exact ⟨fun h => String.ext h, fun h => h ▸ rfl⟩

lemma cmpStr_swap (a b : String) :
    cmpStr a b = Ordering.lt ↔ cmpStr b a = Ordering.gt :=
  cmpList_swap cmpChar cmpChar_eq_iff cmpChar_swap a.data b.data

lemma cmpStr_lt_trans (a b c : String) (h1 : cmpStr a b = Ordering.lt)
    (h2 : cmpStr b c = Ordering.lt) : cmpStr a c = Ordering.lt :=
  cmpList_lt_trans cmpChar cmpChar_eq_iff cmpChar_lt_trans a.data b.data c.data h1 h2

lemma cmpKeys_eq_iff (a b : List String) : cmpKeys a b = Ordering.eq ↔ a = b :=
  cmpList_eq_iff cmpStr cmpStr_eq_iff a b

lemma cmpKeys_swap (a b : List String) :
    cmpKeys a b = Ordering.lt ↔ cmpKeys b a = Ordering.gt :=
  cmpList_swap cmpStr cmpStr_eq_iff cmpStr_swap a b

lemma cmpKeys_lt_trans (a b c : List String) (h1 : cmpKeys a b = Ordering.lt)
    (h2 : cmpKeys b c = Ordering.lt) : cmpKeys a c = Ordering.lt :=
  cmpList_lt_trans cmpStr cmpStr_eq_iff cmpStr_lt_trans a b c h1 h2

lemma rowLE_trans (a b c : Row β) (h1 : rowLE a b = true) (h2 : rowLE b c = true) :
    rowLE a c = true := by
  simp only [rowLE, decide_eq_true_eq, Ne, ne_eq] at *
  rcases hab : cmpKeys (rowKeys a) (rowKeys b) with _ | _ | _
  · rcases hbc : cmpKeys (rowKeys b) (rowKeys c) with _ | _ | _
    · intro hac
      have := cmpKeys_lt_trans _ _ _ hab hbc
      rw [this] at hac
      simp at hac
    · have : rowKeys b = rowKeys c := (cmpKeys_eq_iff _ _).mp hbc
      rw [← this, hab]
      simp
    · exact absurd hbc h2
  · have : rowKeys a = rowKeys b := (cmpKeys_eq_iff _ _).mp hab
    rw [this]
    exact h2
  · exact absurd hab h1

lemma rowLE_total (a b : Row β) : (rowLE a b || rowLE b a) = true := by
  simp only [rowLE, Bool.or_eq_true, decide_eq_true_eq, Ne, ne_eq]
  by_cases h : cmpKeys (rowKeys a) (rowKeys b) = Ordering.gt
  · right
    have : cmpKeys (rowKeys b) (rowKeys a) = Ordering.lt := (cmpKeys_swap _ _).mpr h
    rw [this]
    simp
  · left
    exact h

lemma rowLE_antisymm (a b : Row β) (h1 : rowLE a b = true) (h2 : rowLE b a = true) :
    rowKeys a = rowKeys b := by
  simp only [rowLE, decide_eq_true_eq, Ne, ne_eq] at h1 h2
  rcases h : cmpKeys (rowKeys a) (rowKeys b) with _ | _ | _
  · exact absurd ((cmpKeys_swap _ _).mp h) h2
  · exact (cmpKeys_eq_iff _ _).mp h
  · exact absurd h h1

lemma sortRows_perm (rows : List (Row β)) : (sortRows rows).Perm rows :=
  List.mergeSort_perm rows rowLE

lemma sortRows_pairwise (rows : List (Row β)) :
    (sortRows rows).Pairwise (fun a b => rowLE a b = true) :=
  List.sorted_mergeSort (fun a b c => rowLE_trans a b c) rowLE_total rows

lemma insertLabels_append (l1 l2 : List (Event α β)) :
    insertLabels (l1 ++ l2) = insertLabels l1 ++ insertLabels l2 := by
  induction l1 with
  | nil => rfl
  | cons e es ih =>
    cases e <;> simp [insertLabels, ih]

lemma insertLabels_map_insert (c : SappClass) (ls : List (List (Row β))) :
    insertLabels ((ls.map (Event.insert c) : List (Event α β))) =
      ls.map (fun _ => c) := by
  induction ls with
  | nil => rfl
  | cons l ls ih => simp [insertLabels, ih]

lemma prepCalls_append (l1 l2 : List (Event α β)) :
    prepCalls (l1 ++ l2) = prepCalls l1 ++ prepCalls l2 := by
  induction l1 with
  | nil => rfl
  | cons e es ih =>
    cases e <;> simp [prepCalls, ih]

lemma prepCalls_map_insert (c : SappClass) (ls : List (List (Row β))) :
    prepCalls ((ls.map (Event.insert c) : List (Event α β))) = ([] : List (SappClass × List (Item α))) := by
  induction ls with
  | nil => rfl
  | cons l ls ih => simp [prepCalls, ih]

lemma saveClass_events (prepare : SappClass → List (Item α) → List (Row β))
    (b : BulkSaver α) (cls : SappClass) :
    (BulkSaver.saveClass prepare b cls).1 =
      Event.prepareCall cls ((b.saving cls.name).reverse) ::
        (split_every BATCH_SIZE
            (sortRows (prepare cls ((b.saving cls.name).reverse)))).map
          (Event.insert cls) := by
  simp [BulkSaver.saveClass, consume_eq]

lemma saveClass_saving (prepare : SappClass → List (Item α) → List (Row β))
    (b : BulkSaver α) (cls : SappClass) (s : String) :
    ((BulkSaver.saveClass prepare b cls).2).saving s =
      if s = cls.name then [] else b.saving s := by
  simp [BulkSaver.saveClass, consume_eq]

lemma saveClass_labels (prepare : SappClass → List (Item α) → List (Row β))
    (b : BulkSaver α) (cls : SappClass) :
    ∀ c ∈ insertLabels (BulkSaver.saveClass prepare b cls).1, c = cls := by
  rw [saveClass_events]
  intro c hc
  simp only [insertLabels, insertLabels_map_insert] at hc
  rcases List.mem_map.mp hc with ⟨l, _, h⟩
  exact h.symm

lemma saveLoop_isReserve (prepare : SappClass → List (Item α) → List (Row β))
    (b : BulkSaver α) (cs : List SappClass) :
    ∀ e ∈ (BulkSaver.saveLoop prepare b cs).1, e.isReserve = false := by
  induction cs generalizing b with
  | nil => intro e he; simp [BulkSaver.saveLoop] at he
  | cons c cs ih =>
    intro e he
    simp only [BulkSaver.saveLoop, List.mem_append] at he
    rcases he with he | he
    · rw [saveClass_events] at he
      rcases List.mem_cons.mp he with rfl | he2
      · rfl
      · rcases List.mem_map.mp he2 with ⟨l, _, rfl⟩
        rfl
    · exact ih _ e he

lemma saveLoop_labels_mem (prepare : SappClass → List (Item α) → List (Row β))
    (b : BulkSaver α) (cs : List SappClass) :
    ∀ c ∈ insertLabels (BulkSaver.saveLoop prepare b cs).1, c ∈ cs := by
  induction cs generalizing b with
  | nil => intro c hc; simp [BulkSaver.saveLoop, insertLabels] at hc
  | cons d cs ih =>
    intro c hc
    simp only [BulkSaver.saveLoop, insertLabels_append, List.mem_append] at hc
    rcases hc with hc | hc
    · exact (saveClass_labels prepare b d c hc) ▸ List.mem_cons_self d cs
    · exact List.mem_cons_of_mem d (ih _ c hc)

lemma saveLoop_labels_pairwise (prepare : SappClass → List (Item α) → List (Row β))
    (R : SappClass → SappClass → Prop) (hrefl : ∀ c, R c c)
    (b : BulkSaver α) (cs : List SappClass) (hcs : cs.Pairwise R) :
    (insertLabels (BulkSaver.saveLoop prepare b cs).1).Pairwise R := by
  induction cs generalizing b with
  | nil => simp [BulkSaver.saveLoop, insertLabels]
  | cons d cs ih =>
    simp only [BulkSaver.saveLoop, insertLabels_append]
    rw [List.pairwise_append]
    refine ⟨?_, ih _ (List.Pairwise.of_cons hcs), ?_⟩
    · rw [List.pairwise_iff_forall_sublist]
      intro a c hsub
      have ha : a ∈ insertLabels (BulkSaver.saveClass prepare b d).1 :=
        hsub.subset (List.mem_cons_self a [c])
      have hc : c ∈ insertLabels (BulkSaver.saveClass prepare b d).1 :=
        hsub.subset (List.mem_cons_of_mem a (List.mem_cons_self c []))
      rw [saveClass_labels prepare b d a ha, saveClass_labels prepare b d c hc]
      exact hrefl d
    · intro a ha c hc
      rw [saveClass_labels prepare b d a ha]
      exact (List.pairwise_cons.mp hcs).1 c (saveLoop_labels_mem prepare _ cs c hc)

lemma saveLoop_saving_not_mem (prepare : SappClass → List (Item α) → List (Row β))
    (b : BulkSaver α) (cs : List SappClass) (s : String)
    (hs : s ∉ cs.map SappClass.name) :
    ((BulkSaver.saveLoop prepare b cs).2).saving s = b.saving s := by
  induction cs generalizing b with
  | nil => rfl
  | cons c cs ih =>
    simp only [List.map_cons, List.mem_cons, not_or] at hs
    simp only [BulkSaver.saveLoop]
    rw [ih _ (by simpa using hs.2), saveClass_saving]
    simp [hs.1]

lemma saveLoop_saving_mem (prepare : SappClass → List (Item α) → List (Row β))
    (b : BulkSaver α) (cs : List SappClass) (s : String)
    (hc : ∃ c ∈ cs, SappClass.name c = s) :
    ((BulkSaver.saveLoop prepare b cs).2).saving s = [] := by
  induction cs generalizing b with
  | nil => simp at hc
  | cons d cs ih =>
    simp only [BulkSaver.saveLoop]
    by_cases h2 : ∃ c ∈ cs, SappClass.name c = s
    · exact ih _ h2
    · have hs : s ∉ cs.map SappClass.name := by
        intro hmem
        rcases List.mem_map.mp hmem with ⟨c', hc', hn⟩
        exact h2 ⟨c', hc', hn⟩
      rw [saveLoop_saving_not_mem prepare _ cs s hs, saveClass_saving]
      rcases hc with ⟨c, hmem, hname⟩
      rcases List.mem_cons.mp hmem with rfl | hmem2
      · rw [if_pos hname.symm]
      · exact absurd ⟨c, hmem2, hname⟩ h2

lemma saveLoop_prepCalls (prepare : SappClass → List (Item α) → List (Row β))
    (b : BulkSaver α) (cs : List SappClass)
    (hnd : (cs.map SappClass.name).Nodup) :
    prepCalls (BulkSaver.saveLoop prepare b cs).1 =
      cs.map (fun c => (c, (b.saving c.name).reverse)) := by
  induction cs generalizing b with
  | nil => rfl
  | cons c cs ih =>
    simp only [List.map_cons, List.nodup_cons] at hnd
    simp only [BulkSaver.saveLoop, prepCalls_append]
    rw [saveClass_events]
    simp only [prepCalls, prepCalls_map_insert, List.nil_append]
    rw [ih _ hnd.2]
    simp only [List.singleton_append, List.map_cons]
    congr 1
    apply List.map_congr_left
    intro d hd
    rw [saveClass_saving]
    have : d.name ≠ c.name := by
      intro h
      exact hnd.1 (h ▸ List.mem_map_of_mem SappClass.name hd)
    simp [this]

lemma names_nodup : (SAVING_CLASSES_ORDER.map SappClass.name).Nodup := by
  decide

lemma save_all_eq (prepare : SappClass → List (Item α) → List (Row β)) (b : BulkSaver α) :
    BulkSaver.save_all prepare b =
      (Event.reserve
          (SAVING_CLASSES_ORDER.filter (fun c => (b.saving c.name).length != 0))
          ((SAVING_CLASSES_ORDER.filter (fun c => (b.saving c.name).length != 0)).map
            (fun c => (c.name, (b.get_items_to_add c).length))) ::
        (BulkSaver.saveLoop prepare b
          (SAVING_CLASSES_ORDER.filter (fun c => (b.saving c.name).length != 0))).1,
       (BulkSaver.saveLoop prepare b
          (SAVING_CLASSES_ORDER.filter (fun c => (b.saving c.name).length != 0))).2) := rfl

lemma insertLabels_cons_reserve (cs : List SappClass) (ic : List (String × Nat))
    (es : List (Event α β)) :
    insertLabels (Event.reserve cs ic :: es) = insertLabels es := rfl

lemma prepCalls_cons_reserve (cs : List SappClass) (ic : List (String × Nat))
    (es : List (Event α β)) :
    prepCalls (Event.reserve cs ic :: es) = prepCalls es := rfl

/-! ### The claims -/

/-- C1: During any single call to `save_all`, record kinds are saved in the
fixed order given by `SAVING_CLASSES_ORDER`: reading the trace of
bulk-insert calls left to right, the positions of the inserted classes in
`SAVING_CLASSES_ORDER` are monotone, so for classes A before B in the
order, no row of kind B is inserted before all pending rows of kind A
have been inserted. -/
theorem claim_C1_insert_order (prepare : SappClass → List (Item α) → List (Row β))
    (b : BulkSaver α) :
    (insertLabels (BulkSaver.save_all prepare b).1).Pairwise
      (fun c d => orderIdx c ≤ orderIdx d) := by
  have horder : SAVING_CLASSES_ORDER.Pairwise (fun c d => orderIdx c ≤ orderIdx d) := by
    decide
  rw [save_all_eq, insertLabels_cons_reserve]
  exact saveLoop_labels_pairwise prepare (fun c d => orderIdx c ≤ orderIdx d)
    (fun c => le_refl (orderIdx c)) b _
    (List.Pairwise.sublist (List.filter_sublist _) horder)

/-- C2: `save_all` performs the key-reservation exactly once, as the very
first event of the trace (before any insert); the reservation lists
exactly the classes with a non-empty pending list, with the pending count
of each; no other event of the trace is a reservation; and every
bulk-inserted class had a non-empty pending list (zero-pending classes
are excluded from reservation and saving). -/
theorem claim_C2_reserve_once (prepare : SappClass → List (Item α) → List (Row β))
    (b : BulkSaver α) :
    ((BulkSaver.save_all prepare b).1).head? =
      some (Event.reserve
        (SAVING_CLASSES_ORDER.filter (fun c => (b.saving c.name).length != 0))
        ((SAVING_CLASSES_ORDER.filter (fun c => (b.saving c.name).length != 0)).map
          (fun c => (c.name, (b.get_items_to_add c).length))))
    ∧ (∀ e ∈ ((BulkSaver.save_all prepare b).1).tail, e.isReserve = false)
    ∧ (∀ c ∈ insertLabels (BulkSaver.save_all prepare b).1,
        (b.saving c.name).length ≠ 0) := by
  rw [save_all_eq]
  refine ⟨rfl, ?_, ?_⟩
  · intro e he
    rw [List.tail_cons] at he
    exact saveLoop_isReserve prepare b _ e he
  · intro c hc
    rw [insertLabels_cons_reserve] at hc
    have hmem := saveLoop_labels_mem prepare b _ c hc
    have := (List.mem_filter.mp hmem).2
    simpa using this

/-- C3: In `_save`, the prepared (sorted) rows of a class are split into
consecutive chunks of exactly `BATCH_SIZE` rows, except possibly a shorter
(never empty) final chunk; each chunk becomes one bulk-insert event, in
order; and the concatenation of the chunks equals the full prepared row
sequence, so chunking drops and duplicates nothing. -/
theorem claim_C3_chunking (prepare : SappClass → List (Item α) → List (Row β))
    (b : BulkSaver α) (cls : SappClass) :
    (BulkSaver.saveClass prepare b cls).1 =
      Event.prepareCall cls ((b.saving cls.name).reverse) ::
        (split_every BATCH_SIZE
            (sortRows (prepare cls ((b.saving cls.name).reverse)))).map
          (Event.insert cls)
    ∧ (split_every BATCH_SIZE
          (sortRows (prepare cls ((b.saving cls.name).reverse)))).flatten =
        sortRows (prepare cls ((b.saving cls.name).reverse))
    ∧ (∀ ch ∈ (split_every BATCH_SIZE
          (sortRows (prepare cls ((b.saving cls.name).reverse)))).dropLast,
        ch.length = BATCH_SIZE)
    ∧ (∀ ch ∈ split_every BATCH_SIZE
          (sortRows (prepare cls ((b.saving cls.name).reverse))),
        ch.length ≤ BATCH_SIZE ∧ ch ≠ []) :=
  ⟨saveClass_events prepare b cls,
   split_every_flatten BATCH_SIZE (by decide) _,
   split_every_dropLast BATCH_SIZE (by decide) _,
   split_every_mem BATCH_SIZE (by decide) _⟩

/-- C4: `save_all` is a flush: each class with pending records has its
whole pending list passed to `prepare` exactly once (in one `prepare` call
per class, in order), and after `save_all` returns every per-class pending
list of the accumulator is empty. -/
theorem claim_C4_flush (prepare : SappClass → List (Item α) → List (Row β))
    (b : BulkSaver α) :
    prepCalls (BulkSaver.save_all prepare b).1 =
      (SAVING_CLASSES_ORDER.filter (fun c => (b.saving c.name).length != 0)).map
        (fun c => (c, (b.saving c.name).reverse))
    ∧ ∀ c ∈ SAVING_CLASSES_ORDER,
        ((BulkSaver.save_all prepare b).2).saving c.name = [] := by
  constructor
  · rw [save_all_eq, prepCalls_cons_reserve]
    exact saveLoop_prepCalls prepare b _
      (List.Nodup.sublist (List.Sublist.map _ (List.filter_sublist _)) names_nodup)
  · intro c hc
    rw [save_all_eq]
    by_cases hlen : (b.saving c.name).length = 0
    · rw [saveLoop_saving_not_mem]
      · exact List.length_eq_zero.mp hlen
      · intro hmem
        rcases List.mem_map.mp hmem with ⟨d, hd, hdn⟩
        have hdc : d = c := name_inj d c hdn
        subst hdc
        have := (List.mem_filter.mp hd).2
        simp only [bne_iff_ne, Ne, ne_eq] at this
        exact this hlen
    · apply saveLoop_saving_mem
      refine ⟨c, ?_, rfl⟩
      rw [List.mem_filter]
      exact ⟨hc, by simpa using hlen⟩

/-- C5: `_save` sorts the prepared row mappings by the list of their keys:
the result is a permutation of the prepared rows (nothing added, removed
or modified), it is sorted under the key-list comparison, and rows with
equal key lists end up contiguous (any row between two rows of equal key
list has that same key list). -/
theorem claim_C5_sorted (rows : List (Row β)) (i j k : Nat)
    (hij : i ≤ j) (hjk : j ≤ k) (hk : k < (sortRows rows).length) :
    (sortRows rows).Perm rows
    ∧ (sortRows rows).Pairwise (fun a b => rowLE a b = true)
    ∧ (rowKeys ((sortRows rows).get ⟨i, by omega⟩) =
          rowKeys ((sortRows rows).get ⟨k, hk⟩) →
        rowKeys ((sortRows rows).get ⟨j, by omega⟩) =
          rowKeys ((sortRows rows).get ⟨i, by omega⟩)) := by
  refine ⟨sortRows_perm rows, sortRows_pairwise rows, ?_⟩
  intro hik
  have hp := sortRows_pairwise rows
  rw [List.pairwise_iff_get] at hp
  rcases Nat.eq_or_lt_of_le hij with heq1 | hij'
  · subst heq1
    rfl
  rcases Nat.eq_or_lt_of_le hjk with heq2 | hjk'
  · subst heq2
    exact hik.symm
  have h1 := hp ⟨i, by omega⟩ ⟨j, by omega⟩ hij'
  have h2 := hp ⟨j, by omega⟩ ⟨k, hk⟩ hjk'
  have h2' : rowLE ((sortRows rows).get ⟨j, by omega⟩)
      ((sortRows rows).get ⟨i, by omega⟩) = true := by
    simp only [rowLE, decide_eq_true_eq] at h2 ⊢
    rw [← hik] at h2
    exact h2
  exact rowLE_antisymm _ _ h2' h1

/-- C5 witness: three rows with equal key lists stay a permutation, sorted,
and contiguous at indices 0 ≤ 1 ≤ 2. -/
theorem claim_C5_sorted_witness :
    (0 ≤ 1) ∧ (1 ≤ 2)
    ∧ (2 < (sortRows [[("b", (0 : Nat))], [("b", 1)], [("b", 2)]]).length)
    ∧ ((sortRows [[("b", (0 : Nat))], [("b", 1)], [("b", 2)]]).Perm
          [[("b", (0 : Nat))], [("b", 1)], [("b", 2)]]
      ∧ (sortRows [[("b", (0 : Nat))], [("b", 1)], [("b", 2)]]).Pairwise
          (fun a b => rowLE a b = true)
      ∧ (rowKeys ((sortRows [[("b", (0 : Nat))], [("b", 1)], [("b", 2)]]).get
              ⟨0, by rw [(sortRows_perm _).length_eq]; decide⟩) =
            rowKeys ((sortRows [[("b", (0 : Nat))], [("b", 1)], [("b", 2)]]).get
              ⟨2, by rw [(sortRows_perm _).length_eq]; decide⟩) →
          rowKeys ((sortRows [[("b", (0 : Nat))], [("b", 1)], [("b", 2)]]).get
              ⟨1, by rw [(sortRows_perm _).length_eq]; decide⟩) =
            rowKeys ((sortRows [[("b", (0 : Nat))], [("b", 1)], [("b", 2)]]).get
              ⟨0, by rw [(sortRows_perm _).length_eq]; decide⟩))) := by
  have hk : 2 < (sortRows [[("b", (0 : Nat))], [("b", 1)], [("b", 2)]]).length := by
    rw [(sortRows_perm _).length_eq]
    decide
  exact ⟨by decide, by decide, hk,
    claim_C5_sorted [[("b", (0 : Nat))], [("b", 1)], [("b", 2)]] 0 1 2
      (by decide) (by decide) hk⟩

/-- C6: `add` groups records by type: for an item whose model class is
known, `add` succeeds, appends the item at the end of the pending list
keyed by the model's name, and leaves the pending list of every other
class unchanged. -/
theorem claim_C6_add_groups (b : BulkSaver α) (item : Item α)
    (h : item.model ∈ SAVING_CLASSES_ORDER) :
    (b.add item).1 = Except.ok ()
    ∧ ((b.add item).2).saving item.model.name = b.saving item.model.name ++ [item]
    ∧ ∀ c ∈ SAVING_CLASSES_ORDER, c ≠ item.model →
        ((b.add item).2).saving c.name = b.saving c.name := by
  refine ⟨?_, ?_, ?_⟩
  · simp [BulkSaver.add, h]
  · simp [BulkSaver.add, h]
  · intro c hc hne
    have hname : c.name ≠ item.model.name := fun hn => hne (name_inj c item.model hn)
    simp [BulkSaver.add, h, hname]

/-- C6 witness: adding an `Issue` record to a fresh accumulator. -/
theorem claim_C6_add_groups_witness :
    (Item.mk SappClass.Issue (0 : Nat)).model ∈ SAVING_CLASSES_ORDER
    ∧ (((BulkSaver.init Nat).add (Item.mk SappClass.Issue 0)).1 = Except.ok ()
      ∧ (((BulkSaver.init Nat).add (Item.mk SappClass.Issue 0)).2).saving
            (Item.mk SappClass.Issue (0 : Nat)).model.name =
          (BulkSaver.init Nat).saving (Item.mk SappClass.Issue (0 : Nat)).model.name
            ++ [Item.mk SappClass.Issue 0]
      ∧ ∀ c ∈ SAVING_CLASSES_ORDER, c ≠ (Item.mk SappClass.Issue (0 : Nat)).model →
          (((BulkSaver.init Nat).add (Item.mk SappClass.Issue 0)).2).saving c.name =
            (BulkSaver.init Nat).saving c.name) :=
  ⟨by decide, claim_C6_add_groups (BulkSaver.init Nat) (Item.mk SappClass.Issue 0) (by decide)⟩

/-- C7: `add` raises an assertion error if and only if the item's model
class is not one of the known classes of `SAVING_CLASSES_ORDER` (for
example a `Run` record, which must go through `session.add()` instead);
when it raises, the error carries the assert's message and the accumulator
state is unchanged. -/
theorem claim_C7_add_assert (b : BulkSaver α) (item : Item α) :
    ((∃ msg, (b.add item).1 = Except.error msg) ↔ item.model ∉ SAVING_CLASSES_ORDER)
    ∧ (item.model ∉ SAVING_CLASSES_ORDER →
        (b.add item).1 =
            Except.error (item.model.name ++ " should be added with session.add()")
          ∧ (b.add item).2 = b) := by
  by_cases h : item.model ∈ SAVING_CLASSES_ORDER
  · simp [BulkSaver.add, h]
  · simp [BulkSaver.add, h]

/-- C7 witness: a `Run` record is rejected with the assert's message and
leaves a fresh accumulator unchanged. -/
theorem claim_C7_add_assert_witness :
    (Item.mk SappClass.Run (0 : Nat)).model ∉ SAVING_CLASSES_ORDER
    ∧ ((BulkSaver.init Nat).add (Item.mk SappClass.Run 0)).1 =
        Except.error ((Item.mk SappClass.Run (0 : Nat)).model.name ++
          " should be added with session.add()")
    ∧ ((BulkSaver.init Nat).add (Item.mk SappClass.Run 0)).2 = BulkSaver.init Nat :=
  have h := claim_C7_add_assert (BulkSaver.init Nat) (Item.mk SappClass.Run 0)
  ⟨by decide, (h.2 (by decide)).1, (h.2 (by decide)).2⟩

/-- C8: fully iterating `consume(l)` yields exactly the elements of `l` in
reverse order and leaves `l` empty; consequently `_save` hands the pending
rows of a class to `prepare` in reverse order of their addition. -/
theorem claim_C8_consume_reverse (l : List γ)
    (prepare : SappClass → List (Item α) → List (Row β))
    (b : BulkSaver α) (cls : SappClass) :
    consume l = (l.reverse, [])
    ∧ ((BulkSaver.saveClass prepare b cls).1).head? =
        some (Event.prepareCall cls ((b.saving cls.name).reverse)) := by
  refine ⟨consume_eq l, ?_⟩
  rw [saveClass_events]
  rfl

/-- C9: `add_all` validates only the first item of a non-empty list: when
the first item's model class is known, the whole list is appended, in
order, to the pending list keyed by the first item's model name (even if
later items have a different model class), other lists unchanged. -/
theorem claim_C9_add_all_first (b : BulkSaver α) (first : Item α)
    (rest : List (Item α)) (h : first.model ∈ SAVING_CLASSES_ORDER) :
    (b.add_all (first :: rest)).1 = Except.ok ()
    ∧ ((b.add_all (first :: rest)).2).saving first.model.name =
        b.saving first.model.name ++ (first :: rest)
    ∧ ∀ c ∈ SAVING_CLASSES_ORDER, c ≠ first.model →
        ((b.add_all (first :: rest)).2).saving c.name = b.saving c.name := by
  refine ⟨?_, ?_, ?_⟩
  · simp [BulkSaver.add_all, h]
  · simp [BulkSaver.add_all, h]
  · intro c hc hne
    have hname : c.name ≠ first.model.name := fun hn => hne (name_inj c first.model hn)
    simp [BulkSaver.add_all, h, hname]

/-- C9 witness: a mixed-class list headed by an `Issue` record is appended
whole to the `Issue` pending list. -/
theorem claim_C9_add_all_first_witness :
    (Item.mk SappClass.Issue (0 : Nat)).model ∈ SAVING_CLASSES_ORDER
    ∧ (((BulkSaver.init Nat).add_all
          (Item.mk SappClass.Issue 0 :: [Item.mk SappClass.SharedText 1])).1 = Except.ok ()
      ∧ (((BulkSaver.init Nat).add_all
            (Item.mk SappClass.Issue 0 :: [Item.mk SappClass.SharedText 1])).2).saving
            (Item.mk SappClass.Issue (0 : Nat)).model.name =
          (BulkSaver.init Nat).saving (Item.mk SappClass.Issue (0 : Nat)).model.name
            ++ (Item.mk SappClass.Issue 0 :: [Item.mk SappClass.SharedText 1])
      ∧ ∀ c ∈ SAVING_CLASSES_ORDER, c ≠ (Item.mk SappClass.Issue (0 : Nat)).model →
          (((BulkSaver.init Nat).add_all
              (Item.mk SappClass.Issue 0 :: [Item.mk SappClass.SharedText 1])).2).saving
              c.name =
            (BulkSaver.init Nat).saving c.name) :=
  ⟨by decide, claim_C9_add_all_first (BulkSaver.init Nat) (Item.mk SappClass.Issue 0)
      [Item.mk SappClass.SharedText 1] (by decide)⟩

/-- C10: `add_all` with an empty (falsy) items argument is a no-op: it
raises no error and leaves the accumulator unchanged. -/
theorem claim_C10_add_all_empty (b : BulkSaver α) :
    b.add_all [] = (Except.ok (), b) := rfl

end BulkSaverModel
